import Mathlib

/-!
Shallow embedding of the sudoku core of the `rs-sudoku` repository
(`src/game.rs`, `src/solver.rs`, `src/errors.rs`) and proofs about it.

Modelling conventions:
* `u8`/`usize` values are modelled as `Nat`; the one place the source casts
  (`self.side_size as u8` in `do_move`) is modelled with an explicit `% 256`.
* `Vec<Cell>` is a `List Cell`.  Rust indexing `grid[i]` panics when out of
  range; the model reads with a default empty cell (`cellAt`) and writes with
  `List.set` (a no-op out of range).  All grids the program builds have
  `side_size * side_size` cells, where reads and writes are in range.
* File handles (`save_file`, `save_path`) are I/O resources and are omitted
  from the state; `save` is modelled as the text it writes and `from_file`
  as a function of the file's text content.
* Strings are modelled as `List Char`.
-/

set_option maxRecDepth 20000

namespace Sudoku

/-- Model of `struct Cell { value: u8, initial: bool }` from `game.rs`. -/
structure Cell where
  value : Nat
  initial : Bool
deriving DecidableEq, Repr

/-- Model of `enum GameError` from `errors.rs`. -/
inductive GameError where
  | IllegalValue
  | InvalidValue
  | IllegalPosition
  | NonEmptyCell
  | CreateSaveFileError
  | NoSaveFile
  | WriteSaveError
  | OpenFileError
  | ParseSaveFileError
  | IncorrectSaveFile
  | OpenSaveFileError
deriving DecidableEq, Repr

/-- Model of `struct Game` from `game.rs`.  The `save_file`/`save_path`
fields (I/O handles) are omitted; every other field is kept. -/
structure Game where
  size : Nat
  side_size : Nat
  selected_index : Option Nat
  selected_value : Option Nat
  grid : List Cell
deriving DecidableEq, Repr

deriving instance DecidableEq for Except

/-- Reading `self.grid[i]`.  The source panics when `i` is out of range; the
model returns an empty cell there (all program-built grids are long enough
that this case is not hit). -/
def cellAt (g : Game) (i : Nat) : Cell :=
  g.grid.getD i ⟨0, false⟩

/-- Model of `Game::new` (`game.rs` lines 70-98), minus save-file creation:
`side_size = size * size` and the grid holds `side_size * side_size` empty,
non-initial cells. -/
def new (size : Nat) : Game where
  size := size
  side_size := size * size
  selected_index := none
  selected_value := none
  grid := List.replicate (size * size * (size * size)) ⟨0, false⟩

/-- Model of `MAX_UNFILL_ATTEMPTS` (`game.rs` line 16). -/
def MAX_UNFILL_ATTEMPTS : Nat := 3

/-- Model of `MIN_CLUES` (`game.rs` line 17). -/
def MIN_CLUES : Nat := 17

/-- Model of `Game::nb_non_empty`: count of cells whose value is not `0`. -/
def nb_non_empty (g : Game) : Nat :=
  (g.grid.filter fun x => x.value ≠ 0).length

/-- Model of `Game::coordinates`: `(index / side_size, index % side_size)`. -/
def coordinates (g : Game) (i : Nat) : Nat × Nat :=
  (i / g.side_size, i % g.side_size)

/-- Model of `Game::index`: `r * side_size + c`. -/
def index (g : Game) (r c : Nat) : Nat :=
  r * g.side_size + c

/-- Model of `Game::column`: the `side_size` indices of column `c`. -/
def column (g : Game) (c : Nat) : List Nat :=
  (List.range g.side_size).map fun x => index g x c

/-- Model of `Game::row`: the `side_size` indices of row `r`. -/
def row (g : Game) (r : Nat) : List Nat :=
  (List.range g.side_size).map fun x => index g r x

/-- Model of `Game::group`: the indices of the `size × size` block containing
`(r, c)`; block origin `(r / size * size, c / size * size)`. -/
def group (g : Game) (r c : Nat) : List Nat :=
  let start_row := r / g.size * g.size
  let start_col := c / g.size * g.size
  (List.range g.size).flatMap fun dr =>
    (List.range g.size).map fun dc => index g (start_row + dr) (start_col + dc)

/-- Model of `Game::neighbors`: concatenation of `column`, `row`, `group`. -/
def neighbors (g : Game) (r c : Nat) : List Nat :=
  column g c ++ row g r ++ group g r c

/-- Model of `Game::valids`: the values in `1..=side_size` taken by no
neighbor of the cell at `index`.  The source materialises a `HashSet` and
removes each used value (with an early break once empty, a pure
optimisation); the resulting set is `{1..side} \ used`, produced here in
ascending order (the source's iteration order over the `HashSet` is
unspecified, and every caller treats the result as a set). -/
def valids (g : Game) (i : Nat) : List Nat :=
  let rc := coordinates g i
  let used := (neighbors g rc.1 rc.2).map fun j => (cellAt g j).value
  ((List.range g.side_size).map fun v => v + 1).filter fun v => ¬ used.contains v

/-- One group of `is_done`'s checks: does some cell among `idxs` hold `v`?
Models `.map(|i| self.grid[i].value).any(|x| x == v)`. -/
def containsVal (g : Game) (idxs : List Nat) (v : Nat) : Bool :=
  idxs.any fun i => (cellAt g i).value == v

/-- Model of `Game::is_done` (`game.rs` lines 270-315): false if any cell is
`0`; otherwise every row, every column and every block must contain every
value of `1..=side_size` at least once. -/
def is_done (g : Game) : Bool :=
  if g.grid.any fun x => x.value == 0 then false
  else
    ((List.range g.side_size).all fun r =>
      ((List.range g.side_size).map fun v => v + 1).all fun v =>
        containsVal g (row g r) v) &&
    ((List.range g.side_size).all fun c =>
      ((List.range g.side_size).map fun v => v + 1).all fun v =>
        containsVal g (column g c) v) &&
    ((List.range g.size).all fun gx =>
      (List.range g.size).all fun gy =>
        ((List.range g.side_size).map fun v => v + 1).all fun v =>
          containsVal g (group g (gx * g.size) (gy * g.size)) v)

/-- Model of `Game::do_move` (`game.rs` lines 317-353), returning the state
of `self` when the `&mut self` borrow ends together with the `Result`:
each `return Err(..)` happens before any mutation, so those branches return
the unchanged game.  The value-range test models the source's
`value > self.side_size as u8` with an explicit `% 256` for the `u8` cast.
The save step (`self.save()?` when a file is attached) only performs I/O
and is not modelled. -/
def do_move (g : Game) (r c : Nat) (value : Nat) : Game × Option GameError :=
  if r ≥ g.side_size ∨ c ≥ g.side_size then (g, some .IllegalPosition)
  else if value = 0 ∨ value > g.side_size % 256 then (g, some .IllegalValue)
  else
    let i := index g r c
    if (cellAt g i).value ≠ 0 then (g, some .NonEmptyCell)
    else if ¬ (valids g i).contains value then (g, some .InvalidValue)
    else ({ g with grid := g.grid.set i ⟨value, false⟩ }, none)

/-- Helper for `fill_rng`'s recursion: `rem` is the number of cells from
`current` (inclusive) up to `side_size * side_size` (exclusive), so `rem = 0`
models the source's `current_cell >= side_size * side_size` base case
returning `true`.  The source's `for n in v { .. }` loop over the candidate
values (computed once, before the loop) threads the grid through each
iteration and returns early on a successful recursive fill; it is modelled
as a fold whose accumulator holds the grid so far and the success bit
(a `true` bit makes the remaining steps no-ops, i.e. the early return).
On exhaustion of the candidates the cell is reset to empty/non-initial and
`false` is returned, exactly as in the source. -/
def fillR (g : Game) (current : Nat) : Nat → List Cell × Bool
  | 0 => (g.grid, true)
  | rem + 1 =>
    let r := (valids g current).foldl
      (fun acc n =>
        if acc.2 then acc
        else fillR { g with grid := acc.1.set current ⟨n, true⟩ } (current + 1) rem)
      (g.grid, false)
    if r.2 then r else (r.1.set current ⟨0, false⟩, false)

/-- Model of `Game::fill_rng` (`game.rs` lines 355-377), returning the grid
at the end of the call together with the `bool` result. -/
def fill_rng (g : Game) (current_cell : Nat) : List Cell × Bool :=
  fillR g current_cell (g.side_size * g.side_size - current_cell)

/-- Model of the `while` loop of `Game::unfill` (`game.rs` lines 401-434).
The source's `rand::thread_rng` is modelled by an explicit stream of draws,
each taken modulo `side_size * side_size` as `gen_range(0..side²)` produces;
the source's inner resampling loop (`while self.grid[random_index] == 0`)
is the `else` branch drawing the next element of the stream (the outer
condition it re-evaluates is unchanged by resampling).  An exhausted stream
(impossible for the real generator) stops the loop.  The solver argument
models `solver.solve(&mut game_copy)` as a function of the copied game
returning `true` for `Ok`: the copy is discarded, so only the success bit
matters.  As in the source, the copy carries no selection and no save file
and shares the sizes and the grid as it stands after emptying the drawn
cell. -/
def unfillLoop (solver : Game → Bool) (g : Game) (attempt : Nat) : List Nat → Game
  | [] => g
  | r :: rest =>
    if attempt > 0 ∧ nb_non_empty g ≥ MIN_CLUES then
      let random_index := r % (g.side_size * g.side_size)
      if (cellAt g random_index).value = 0 then unfillLoop solver g attempt rest
      else
        let old_value := (cellAt g random_index).value
        let g' : Game := { g with grid := g.grid.set random_index ⟨0, false⟩ }
        let game_copy : Game :=
          { size := g.size, side_size := g.side_size, selected_index := none,
            selected_value := none, grid := g'.grid }
        if solver game_copy then unfillLoop solver g' attempt rest
        else
          unfillLoop solver { g' with grid := g'.grid.set random_index ⟨old_value, true⟩ }
            (attempt - 1) rest
    else g

/-- Model of `Game::unfill` (`game.rs` lines 388-435): run the reduction
loop with `MAX_UNFILL_ATTEMPTS` attempts. -/
def unfill (solver : Game → Bool) (g : Game) (rng : List Nat) : Game :=
  unfillLoop solver g MAX_UNFILL_ATTEMPTS rng

/-- The scan of `Obvious::solve` (`solver.rs` lines 16-24): the first index
in `0..side²` holding `0` whose candidate set has exactly one element. -/
def findNaked (g : Game) : Option Nat :=
  (List.range (g.side_size * g.side_size)).find? fun i =>
    (cellAt g i).value == 0 && (valids g i).length == 1

/-- Model of `Obvious::solve` (`solver.rs` lines 11-27), returning the grid
it leaves behind together with the success bit (`true` for `Ok(())`).  When
a naked single is found at `i`, the source writes `valids(i)[0]` (the only
candidate, `headD 0` here) and recurses.  The guard `h` packages the facts
that make the source's `grid[i]` write well-defined and the recursion
terminating; its `else` branch is unreachable for grids of `side²` cells
(in the source a shorter grid would panic on `grid[i]`). -/
def solve (g : Game) : List Cell × Bool :=
  if is_done g then (g.grid, true)
  else
    match findNaked g with
    | some i =>
      if h : i < g.grid.length ∧ (cellAt g i).value = 0 ∧ 1 ≤ (valids g i).headD 0 then
        solve { g with grid := g.grid.set i ⟨(valids g i).headD 0, false⟩ }
      else (g.grid, false)
    | none => (g.grid, false)
termination_by g.grid.countP fun x => x.value == 0
decreasing_by
  obtain ⟨h1, h2, h3⟩ := h
  rw [List.countP_set _ _ _ _ h1]
  have hgi : g.grid[i] = cellAt g i := by
    simp [cellAt, List.getD_eq_getElem?_getD, List.getElem?_eq_getElem h1]
  have hp : (g.grid[i].value == 0) = true := by
    rw [hgi]
    simp [h2]
  have hv : (((valids g i).headD 0 : Nat) == 0) = false := by
    simp only [beq_eq_false_iff_ne]
    omega
  simp only [hp, hv]
  simp
  exact ⟨g.grid[i], List.getElem_mem h1, by rw [hgi]; exact h2⟩

/-- Worker for `natDigits`: structural recursion on a fuel bound that
dominates the number of digits (any `fuel > n` is enough). -/
def natDigitsGo : Nat → Nat → List Char
  | 0, _ => []
  | fuel + 1, n =>
    if n < 10 then [Char.ofNat (48 + n)]
    else natDigitsGo fuel (n / 10) ++ [Char.ofNat (48 + n % 10)]

/-- Decimal digits of `n`, most significant first: the text Rust's
`format!("{}", n)` produces for an unsigned integer. -/
def natDigits (n : Nat) : List Char :=
  natDigitsGo (n + 1) n

/-- Numeric value of a digit string: what `parse::<usize>` returns on the
`\d+` captures of the save-file regexes (integer overflow past `usize::MAX`
is not modelled). -/
def charsToNat (cs : List Char) : Nat :=
  cs.foldl (fun a c => a * 10 + (c.toNat - 48)) 0

/-- The text `save` writes for one cell: `format!("{}/{}", value, I|N)`
(`game.rs` lines 472-483). -/
def renderCell (x : Cell) : List Char :=
  natDigits x.value ++ '/' :: [if x.initial then 'I' else 'N']

/-- The cells joined with commas: `.collect::<Vec<String>>().join(",")`. -/
def renderCells : List Cell → List Char
  | [] => []
  | [x] => renderCell x
  | x :: y :: xs => renderCell x ++ ',' :: renderCells (y :: xs)

/-- Model of `Game::save` (`game.rs` lines 437-492): the text written to the
save file (each `writeln!` appends a newline).  The source's rewind-
without-truncate of the file handle and its I/O errors are not modelled. -/
def save (g : Game) : List Char :=
  ('g' :: 'a' :: 'm' :: 'e' :: '_' :: 's' :: 'i' :: 'z' :: 'e' :: ':' :: ' ' :: natDigits g.size)
    ++ '\n' ::
  (match g.selected_index with
   | some si => ('s' :: 'e' :: 'l' :: 'e' :: 'c' :: 't' :: 'e' :: 'd' :: ':' :: ' ' :: natDigits si) ++ ['\n']
   | none => [])
    ++ ('c' :: 'e' :: 'l' :: 'l' :: 's' :: ':' :: ' ' :: renderCells g.grid) ++ ['\n']

/-- The lines of a text, splitting at each newline, as the `(?m)` anchors
`^`/`$` of the save-file regexes delimit them. -/
def splitLines : List Char → List (List Char)
  | [] => [[]]
  | c :: rest =>
    if c = '\n' then [] :: splitLines rest
    else
      match splitLines rest with
      | l :: ls => (c :: l) :: ls
      | [] => [[c]]

/-- Match of `RE_GAME_SIZE` = `(?m)^game_size: ([345])$` against one line:
only the exact lines `game_size: 3|4|5` match, and `parse::<usize>` of the
one-digit capture cannot fail. -/
def gameSizeOfLine : List Char → Option Nat
  | 'g' :: 'a' :: 'm' :: 'e' :: '_' :: 's' :: 'i' :: 'z' :: 'e' :: ':' :: ' ' :: rest =>
    if rest = ['3'] then some 3
    else if rest = ['4'] then some 4
    else if rest = ['5'] then some 5
    else none
  | _ => none

/-- Match of `RE_SELECTED` = `(?m)^selected: (\d+)$` against one line: the
rest of the line must be one or more digits, captured and parsed. -/
def selectedOfLine : List Char → Option Nat
  | 's' :: 'e' :: 'l' :: 'e' :: 'c' :: 't' :: 'e' :: 'd' :: ':' :: ' ' :: rest =>
    if rest ≠ [] ∧ rest.all Char.isDigit then some (charsToNat rest) else none
  | _ => none

/-- The greedy repetition `(\d/[IN],?)+` of `RE_CELLS`, which is also what
`RE_CELL` = `(\d)/([IN]),?` captures over the matched text: consume
single-digit/flag items (each with an optional trailing comma) as long as
they parse, returning the cells and the unconsumed rest. -/
def parseCellItems : List Char → List Cell × List Char
  | d :: '/' :: f :: ',' :: rest =>
    if d.isDigit ∧ (f = 'I' ∨ f = 'N') then
      let res := parseCellItems rest
      (⟨d.toNat - 48, f = 'I'⟩ :: res.1, res.2)
    else ([], d :: '/' :: f :: ',' :: rest)
  | d :: '/' :: f :: rest =>
    if d.isDigit ∧ (f = 'I' ∨ f = 'N') then
      let res := parseCellItems rest
      (⟨d.toNat - 48, f = 'I'⟩ :: res.1, res.2)
    else ([], d :: '/' :: f :: rest)
  | other => ([], other)

/-- Match of `RE_CELLS` = `(?m)^cells: (\d/[IN],?)+$?` against one line:
the line must start with `cells: ` and at least one item must parse (the
trailing `$?` is vacuous).  Returns the parsed cells. -/
def cellsOfLine : List Char → Option (List Cell)
  | 'c' :: 'e' :: 'l' :: 'l' :: 's' :: ':' :: ' ' :: rest =>
    let res := parseCellItems rest
    if res.1 = [] then none else some res.1
  | _ => none

/-- First line of `content` matched by `RE_GAME_SIZE` (the regex returns
its leftmost match). -/
def parseGameSize (content : List Char) : Option Nat :=
  (splitLines content).findSome? gameSizeOfLine

/-- First line of `content` matched by `RE_SELECTED`. -/
def parseSelected (content : List Char) : Option Nat :=
  (splitLines content).findSome? selectedOfLine

/-- Cells of the first line of `content` matched by `RE_CELLS`. -/
def parseCells (content : List Char) : Option (List Cell) :=
  (splitLines content).findSome? cellsOfLine

/-- The `selected_value` computed by `from_file` (`game.rs` lines 166-169):
the selected cell's value when a selection exists and that cell is
non-zero. -/
def derivedSelected (cells : List Cell) : Option Nat → Option Nat
  | some si =>
    if (cells.getD si ⟨0, false⟩).value ≠ 0 then some (cells.getD si ⟨0, false⟩).value
    else none
  | none => none

/-- Model of `Game::from_file` (`game.rs` lines 100-186) as a function of
the file's text: regex-extract the game size (else `ParseSaveFileError`),
the optional selection, and the cell list (else `ParseSaveFileError`);
check the cell count is `side²` and any selection is in range (else
`IncorrectSaveFile`); derive `selected_value`.  Reading the file
(`OpenFileError`) and reopening it for writing (`OpenSaveFileError`) are
I/O and are not modelled. -/
def from_file (content : List Char) : Except GameError Game :=
  match parseGameSize content with
  | none => .error .ParseSaveFileError
  | some game_size =>
    let selected_index := parseSelected content
    match parseCells content with
    | none => .error .ParseSaveFileError
    | some cells =>
      let side_size := game_size * game_size
      if cells.length ≠ side_size * side_size then .error .IncorrectSaveFile
      else if (match selected_index with
               | some si => decide (si ≥ side_size * side_size)
               | none => false) then .error .IncorrectSaveFile
      else
        .ok { size := game_size, side_size := side_size,
              selected_index := selected_index,
              selected_value := derivedSelected cells selected_index,
              grid := cells }

/-- Values of row `r` (the claim's independent formulation, written from the
spec's row-major indexing `index(row, col) = row*side + col`). -/
def specRowVals (g : Game) (r : Nat) : List Nat :=
  (List.range g.side_size).map fun c => (cellAt g (r * g.side_size + c)).value

/-- Values of column `c` per the spec's indexing. -/
def specColVals (g : Game) (c : Nat) : List Nat :=
  (List.range g.side_size).map fun r => (cellAt g (r * g.side_size + c)).value

/-- Values of the block at block-row `br`, block-column `bc` (blocks are
`blockSize × blockSize`, origin `(br*blockSize, bc*blockSize)`). -/
def specBlockVals (g : Game) (br bc : Nat) : List Nat :=
  (List.range g.size).flatMap fun dr =>
    (List.range g.size).map fun dc =>
      (cellAt g ((br * g.size + dr) * g.side_size + (bc * g.size + dc))).value

/-- A group of values contains each value of `[1, side]` exactly once. -/
def exactlyOnce (side : Nat) (l : List Nat) : Prop :=
  ∀ v, 1 ≤ v → v ≤ side → l.count v = 1

/-- The completeness property exactly as the claim words it: every cell is
non-empty, and every row, every column and every block contains each value
in `[1, side]` exactly once. -/
def specComplete (g : Game) : Prop :=
  (∀ x ∈ g.grid, x.value ≠ 0) ∧
  (∀ r, r < g.side_size → exactlyOnce g.side_size (specRowVals g r)) ∧
  (∀ c, c < g.side_size → exactlyOnce g.side_size (specColVals g c)) ∧
  (∀ br, br < g.size → ∀ bc, bc < g.size → exactlyOnce g.side_size (specBlockVals g br bc))

/-- A 9×9 grid holding exactly `MIN_CLUES = 17` non-empty cells. -/
def gClues17 : Game :=
  Game.mk 3 9 none none
    (List.replicate 17 (Cell.mk 1 true) ++ List.replicate 64 (Cell.mk 0 false))

/-- A 9×9 grid whose cell `(0, 0)` holds the value 5. -/
def gOccupied : Game :=
  Game.mk 3 9 none none (Cell.mk 5 true :: List.replicate 80 (Cell.mk 0 false))

/-- A 9×9 grid whose cell 0 is empty but flagged initial (`0/I`), as a
persisted save file may legally describe. -/
def gInitialEmpty : Game :=
  Game.mk 3 9 none none (Cell.mk 0 true :: List.replicate 80 (Cell.mk 0 false))

/-- A 16×16 grid (blockSize 4) whose cell 0 holds the two-digit value 10. -/
def gTwoDigit : Game :=
  Game.mk 4 16 none none (Cell.mk 10 true :: List.replicate 255 (Cell.mk 0 false))

/-- A correctly completed 4×4 grid (blockSize 2). -/
def gComplete : Game :=
  Game.mk 2 4 none none
    (([1, 2, 3, 4, 3, 4, 1, 2, 2, 1, 4, 3, 4, 3, 2, 1] : List Nat).map fun v => Cell.mk v false)

/-- A 4×4 grid whose first six cells make cell 6 uncompletable (its row
holds 3 and 4, its column holds 1, its block holds 1 and 2), with cell 7
empty but flagged initial: `fill_rng` from cell 6 fails and returns the
grid unchanged, leaving cell 7 initial. -/
def gStuck : Game :=
  Game.mk 2 4 none none
    ([Cell.mk 3 false, Cell.mk 4 false, Cell.mk 1 false, Cell.mk 2 false,
      Cell.mk 3 false, Cell.mk 4 false, Cell.mk 0 false, Cell.mk 0 true]
      ++ List.replicate 8 (Cell.mk 0 false))

/-- `gStuck` with cell 7 non-initial: the suffix from cell 6 on is entirely
empty and non-initial. -/
def gStuckClean : Game :=
  Game.mk 2 4 none none
    ([Cell.mk 3 false, Cell.mk 4 false, Cell.mk 1 false, Cell.mk 2 false,
      Cell.mk 3 false, Cell.mk 4 false, Cell.mk 0 false, Cell.mk 0 false]
      ++ List.replicate 8 (Cell.mk 0 false))

/-- A 9×9 grid with one clue and a selection on it, whose `selected_value`
agrees with the save format's derivation. -/
def gRound : Game :=
  Game.mk 3 9 (some 0) (some 5) (Cell.mk 5 true :: List.replicate 80 (Cell.mk 0 false))

/-! Theorems. -/

/-- C8: `coordinates` and `index` are mutually inverse: `index ∘ coordinates`
is the identity on indices below `side²`, and `coordinates ∘ index` is the
identity on in-range `(row, col)` pairs. -/
theorem C8_coordinates_index_inverse (g : Game) :
    (∀ i, i < g.side_size * g.side_size →
      index g (coordinates g i).1 (coordinates g i).2 = i) ∧
    (∀ r c, r < g.side_size → c < g.side_size → coordinates g (index g r c) = (r, c)) := by
  constructor
  · intro i _
    simp only [coordinates, index]
    rw [Nat.mul_comm]
    exact Nat.div_add_mod i g.side_size
  · intro r c hr hc
    have hs : 0 < g.side_size := lt_of_le_of_lt (Nat.zero_le c) hc
    simp only [coordinates, index, Prod.mk.injEq]
    rw [Nat.add_comm (r * g.side_size) c, Nat.mul_comm r g.side_size]
    constructor
    · rw [Nat.add_mul_div_left _ _ hs, Nat.div_eq_of_lt hc, Nat.zero_add]
    · rw [Nat.add_mul_mod_self_left, Nat.mod_eq_of_lt hc]

/-- Witness for C8 at concrete in-range inputs on a 9×9 grid. -/
theorem C8_witness :
    index (new 3) (coordinates (new 3) 47).1 (coordinates (new 3) 47).2 = 47 ∧
    coordinates (new 3) (index (new 3) 5 2) = (5, 2) :=
  ⟨(C8_coordinates_index_inverse (new 3)).1 47 (by decide),
   (C8_coordinates_index_inverse (new 3)).2 5 2 (by decide) (by decide)⟩

/-- C6: whenever `do_move` reports an error, that error is one of the four
move errors and the game is left unmodified. -/
theorem C6_failed_move_leaves_grid_unmodified (g : Game) (r c v : Nat) (e : GameError)
    (h : (do_move g r c v).2 = some e) :
    (do_move g r c v).1 = g ∧
    (e = GameError.IllegalPosition ∨ e = GameError.IllegalValue ∨
      e = GameError.NonEmptyCell ∨ e = GameError.InvalidValue) := by
  revert h
  unfold do_move
  split
  · intro h
    injection h with h
    subst h
    exact ⟨rfl, by tauto⟩
  · split
    · intro h
      injection h with h
      subst h
      exact ⟨rfl, by tauto⟩
    · dsimp only
      split
      · intro h
        injection h with h
        subst h
        exact ⟨rfl, by tauto⟩
      · split
        · intro h
          injection h with h
          subst h
          exact ⟨rfl, by tauto⟩
        · intro h
          exact absurd h (by simp)

/-- Witness for C6 at a concrete failing move (out-of-range row). -/
theorem C6_witness :
    (do_move gOccupied 100 0 5).1 = gOccupied ∧
    (GameError.IllegalPosition = GameError.IllegalPosition ∨
      GameError.IllegalPosition = GameError.IllegalValue ∨
      GameError.IllegalPosition = GameError.NonEmptyCell ∨
      GameError.IllegalPosition = GameError.InvalidValue) :=
  C6_failed_move_leaves_grid_unmodified gOccupied 100 0 5 GameError.IllegalPosition (by decide)

/-- Counterexample to C3 as stated: cell `(0, 0)` of `gOccupied` holds 5,
yet attempting the (out-of-range) value 0 on it reports `IllegalValue`,
not `NonEmptyCell` — the value check precedes the occupancy check. -/
theorem C3_counterexample :
    (cellAt gOccupied (index gOccupied 0 0)).value = 5 ∧
    (do_move gOccupied 0 0 0).2 = some GameError.IllegalValue ∧
    (do_move gOccupied 0 0 0).2 ≠ some GameError.NonEmptyCell := by
  decide

/-- C3 amended: for an in-range position whose cell is already non-zero,
`do_move` fails with `NonEmptyCell` for every attempted value that itself
passes the range check (`1 ≤ v ≤ side`, with `side < 256` as for every
supported block size, so the source's `u8` cast is the identity). -/
theorem C3_amended_occupied_rejection (g : Game) (r c v : Nat)
    (hr : r < g.side_size) (hc : c < g.side_size)
    (hv1 : 1 ≤ v) (hv2 : v ≤ g.side_size) (hs : g.side_size < 256)
    (hocc : (cellAt g (index g r c)).value ≠ 0) :
    (do_move g r c v).2 = some GameError.NonEmptyCell := by
  unfold do_move
  rw [if_neg (by omega), if_neg (by omega), if_pos hocc]

/-- Witness for the amended C3 at a concrete occupied cell. -/
theorem C3_witness : (do_move gOccupied 0 0 3).2 = some GameError.NonEmptyCell :=
  C3_amended_occupied_rejection gOccupied 0 0 3 (by decide) (by decide) (by decide)
    (by decide) (by decide) (by decide)

/-- Counterexample to C7 as stated: after `do_move (0,0,9)` succeeds on an
empty 9×9 grid, the candidate set of cell `(0, 0)` is not empty. -/
theorem C7_counterexample :
    (do_move (new 3) 0 0 9).2 = none ∧
    valids (do_move (new 3) 0 0 9).1 (index (do_move (new 3) 0 0 9).1 0 0) ≠ [] := by
  decide

/-- C7 amended: after `do_move (0,0,9)` succeeds on an empty 9×9 grid, the
candidate set of cell `(0, 0)` is `{1, …, 8}` — the placed 9 is excluded
(it occupies a neighbor position: the cell itself), but occupancy does not
empty the set. -/
theorem C7_amended_scenario :
    (do_move (new 3) 0 0 9).2 = none ∧
    valids (do_move (new 3) 0 0 9).1 (index (do_move (new 3) 0 0 9).1 0 0)
      = [1, 2, 3, 4, 5, 6, 7, 8] := by
  decide

/-- `nb_non_empty` as a `countP`, for counting arguments. -/
theorem nb_non_empty_eq_countP (g : Game) :
    nb_non_empty g = g.grid.countP fun x => x.value ≠ 0 :=
  (List.countP_eq_length_filter _ _).symm

/-- A cell read as non-zero lies inside the grid (out-of-range reads give
the default empty cell). -/
theorem lt_length_of_cellAt_value_ne {g : Game} {i : Nat}
    (h : (cellAt g i).value ≠ 0) : i < g.grid.length := by
  by_contra hcon
  push_neg at hcon
  have hnone : g.grid[i]? = none := List.getElem?_eq_none hcon
  simp [cellAt, List.getD_eq_getElem?_getD, hnone] at h

/-- In-range reads of the grid through `cellAt` agree with `getElem`. -/
theorem cellAt_eq_getElem {g : Game} {i : Nat} (h : i < g.grid.length) :
    g.grid[i] = cellAt g i := by
  simp [cellAt, List.getD_eq_getElem?_getD, List.getElem?_eq_getElem h]

/-- Emptying a non-empty cell decrements the non-empty count. -/
theorem nb_non_empty_set_zero {g : Game} {i : Nat} (h : (cellAt g i).value ≠ 0) :
    nb_non_empty { g with grid := g.grid.set i ⟨0, false⟩ } + 1 = nb_non_empty g := by
  have hlen := lt_length_of_cellAt_value_ne h
  rw [nb_non_empty_eq_countP, nb_non_empty_eq_countP]
  show (g.grid.set i ⟨0, false⟩).countP _ + 1 = _
  rw [List.countP_set _ _ _ _ hlen]
  have hgv : g.grid[i].value ≠ 0 := by
    rw [cellAt_eq_getElem hlen]
    exact h
  have hpos : 0 < g.grid.countP fun x : Cell => decide (x.value ≠ 0) :=
    List.countP_pos_iff.mpr ⟨g.grid[i], List.getElem_mem hlen, by simpa using hgv⟩
  simp only [ne_eq, decide_not] at hpos
  simp [hgv]
  omega

/-- Rewriting a cell with its own (non-zero) value, whatever the flag,
keeps the non-empty count. -/
theorem nb_non_empty_set_restore {g : Game} {i : Nat} (h : (cellAt g i).value ≠ 0) (b : Bool) :
    nb_non_empty { g with grid := g.grid.set i ⟨(cellAt g i).value, b⟩ } = nb_non_empty g := by
  have hlen := lt_length_of_cellAt_value_ne h
  rw [nb_non_empty_eq_countP, nb_non_empty_eq_countP]
  show (g.grid.set i ⟨(cellAt g i).value, b⟩).countP _ = _
  rw [List.countP_set _ _ _ _ hlen]
  have hgv : g.grid[i].value ≠ 0 := by
    rw [cellAt_eq_getElem hlen]
    exact h
  have hpos : 0 < g.grid.countP fun x : Cell => decide (x.value ≠ 0) :=
    List.countP_pos_iff.mpr ⟨g.grid[i], List.getElem_mem hlen, by simpa using hgv⟩
  simp only [ne_eq, decide_not] at hpos
  simp [hgv, h]
  omega

/-- Invariant of the unfill loop: the final non-empty count never drops
below `min (initial count) (MIN_CLUES - 1)` — each iteration only empties
a cell after seeing at least `MIN_CLUES` non-empty ones. -/
theorem unfillLoop_min_clues (solver : Game → Bool) :
    ∀ (rng : List Nat) (attempt : Nat) (g : Game),
      min (nb_non_empty g) (MIN_CLUES - 1) ≤ nb_non_empty (unfillLoop solver g attempt rng) := by
  intro rng
  induction rng with
  | nil =>
    intro attempt g
    rw [unfillLoop]
    exact min_le_left _ _
  | cons r rest ih =>
    intro attempt g
    rw [unfillLoop]
    split
    · rename_i hcond
      dsimp only
      split
      · exact ih attempt g
      · rename_i hne
        have hval : (cellAt g (r % (g.side_size * g.side_size))).value ≠ 0 := hne
        split
        · refine le_trans ?_ (ih attempt _)
          have h1 := nb_non_empty_set_zero hval
          have hge : MIN_CLUES ≤ nb_non_empty g := hcond.2
          have hmc : MIN_CLUES = 17 := rfl
          omega
        · rw [List.set_set]
          refine le_trans ?_ (ih (attempt - 1) _)
          rw [nb_non_empty_set_restore hval true]
    · exact min_le_left _ _

/-- Counterexample to C2 as stated: `gClues17` has exactly `MIN_CLUES`
non-empty cells, yet one reduction step (a solver that accepts, random
stream drawing cell 0) leaves only `MIN_CLUES - 1 = 16 < 17` of them. -/
theorem C2_counterexample :
    nb_non_empty gClues17 = MIN_CLUES ∧
    nb_non_empty (unfill (fun _ => true) gClues17 [0]) = MIN_CLUES - 1 ∧
    ¬ MIN_CLUES ≤ nb_non_empty (unfill (fun _ => true) gClues17 [0]) := by
  decide

/-- C2 amended: after `unfill`, the non-empty count is at least
`min (initial count) (MIN_CLUES - 1)`; in particular a grid that enters
with at least `MIN_CLUES` clues keeps at least `MIN_CLUES - 1`, and a grid
that enters below the floor is returned unchanged. -/
theorem C2_amended_clue_floor (solver : Game → Bool) (g : Game) (rng : List Nat) :
    min (nb_non_empty g) (MIN_CLUES - 1) ≤ nb_non_empty (unfill solver g rng) ∧
    (nb_non_empty g < MIN_CLUES → unfill solver g rng = g) := by
  constructor
  · exact unfillLoop_min_clues solver rng MAX_UNFILL_ATTEMPTS g
  · intro hlt
    unfold unfill
    cases rng with
    | nil => rw [unfillLoop]
    | cons r rest =>
      rw [unfillLoop]
      rw [if_neg]
      intro hcond
      exact absurd hcond.2 (by omega)

/-- Witness for the amended C2: a one-clue grid is below the floor and is
returned unchanged. -/
theorem C2_witness :
    min (nb_non_empty gOccupied) (MIN_CLUES - 1)
        ≤ nb_non_empty (unfill (fun _ => true) gOccupied [0]) ∧
    unfill (fun _ => true) gOccupied [0] = gOccupied :=
  ⟨(C2_amended_clue_floor (fun _ => true) gOccupied [0]).1,
   (C2_amended_clue_floor (fun _ => true) gOccupied [0]).2 (by decide)⟩

/-- Writing back the value a position already holds is a no-op. -/
theorem list_set_getD {α : Type} (l : List α) (i : Nat) (d : α) :
    l.set i (l.getD i d) = l := by
  induction l generalizing i with
  | nil => rfl
  | cons a t ih =>
    cases i with
    | zero => rfl
    | succ n => simpa using ih n

/-- Reading an untouched position after a `set`. -/
theorem cellAt_set_ne {g : Game} {i j : Nat} (hne : i ≠ j) (a : Cell) :
    cellAt { g with grid := g.grid.set i a } j = cellAt g j := by
  simp [cellAt, List.getD_eq_getElem?_getD, List.getElem?_set_ne hne]

/-- An emptiness condition on the cells from `k` on only needs checking
inside the grid: beyond its length `cellAt` is the empty cell already. -/
theorem empty_from_bounded {g : Game} {k : Nat}
    (h : ∀ i, k ≤ i → i < g.grid.length → cellAt g i = ⟨0, false⟩) :
    ∀ i, k ≤ i → cellAt g i = ⟨0, false⟩ := by
  intro i hk
  by_cases hl : i < g.grid.length
  · exact h i hk hl
  · have hnone : g.grid[i]? = none := List.getElem?_eq_none (by omega)
    simp [cellAt, List.getD_eq_getElem?_getD, hnone]

/-- Positions other than the written one are unchanged by `List.set`. -/
theorem list_getD_set_ne {l : List Cell} {i j : Nat} (h : i ≠ j) (a d : Cell) :
    (l.set i a).getD j d = l.getD j d := by
  simp [List.getD_eq_getElem?_getD, List.getElem?_set_ne h]

/-- A fold whose step fixes successful accumulators keeps a successful
accumulator unchanged (the model of the source's early `return true`). -/
theorem foldl_keep_true {f : List Cell × Bool → Nat → List Cell × Bool}
    (hkeep : ∀ acc n, acc.2 = true → f acc n = acc) :
    ∀ (l : List Nat) (acc : List Cell × Bool), acc.2 = true → l.foldl f acc = acc := by
  intro l
  induction l with
  | nil =>
    intro acc h
    rfl
  | cons n rest ih =>
    intro acc h
    show rest.foldl f (f acc n) = acc
    rw [hkeep acc n h]
    exact ih acc h

/-- Frame property of the candidate fold of `fillR`: if each unsuccessful
step only changes position `current` of the grid and keeps the cells past
`current` empty, the whole unsuccessful fold does too. -/
theorem foldl_fill_frame (f : List Cell × Bool → Nat → List Cell × Bool) (current : Nat)
    (hkeep : ∀ acc n, acc.2 = true → f acc n = acc)
    (hstep : ∀ (gr : List Cell) n,
      (∀ i, current + 1 ≤ i → gr.getD i ⟨0, false⟩ = ⟨0, false⟩) →
      (f (gr, false) n).2 = false →
      (∀ z, (f (gr, false) n).1.set current z = gr.set current z) ∧
      (∀ i, current + 1 ≤ i → (f (gr, false) n).1.getD i ⟨0, false⟩ = ⟨0, false⟩)) :
    ∀ (l : List Nat) (gr : List Cell),
      (∀ i, current + 1 ≤ i → gr.getD i ⟨0, false⟩ = ⟨0, false⟩) →
      (l.foldl f (gr, false)).2 = false →
      (∀ z, (l.foldl f (gr, false)).1.set current z = gr.set current z) ∧
      (∀ i, current + 1 ≤ i → (l.foldl f (gr, false)).1.getD i ⟨0, false⟩ = ⟨0, false⟩) := by
  intro l
  induction l with
  | nil =>
    intro gr hsuf hf
    exact ⟨fun z => rfl, hsuf⟩
  | cons n rest ih =>
    intro gr hsuf hf
    rw [List.foldl_cons] at hf ⊢
    cases hsplit : f (gr, false) n with
    | mk gr2 b2 =>
      rw [hsplit] at hf
      cases b2 with
      | true =>
        rw [foldl_keep_true hkeep rest _ rfl] at hf
        simp at hf
      | false =>
        have hstepr := hstep gr n hsuf (by rw [hsplit])
        rw [hsplit] at hstepr
        obtain ⟨hz, hs⟩ := hstepr
        obtain ⟨hz2, hs2⟩ := ih gr2 hs hf
        refine ⟨fun z => ?_, hs2⟩
        rw [hz2 z, hz z]

/-- Frame property of a failed fill: when every cell from `current` on is
empty and non-initial, a `false` return of `fillR` restores the grid
exactly. -/
theorem fillR_false_frame : ∀ (rem : Nat) (g : Game) (current : Nat),
    (∀ i, current ≤ i → cellAt g i = ⟨0, false⟩) →
    (fillR g current rem).2 = false → (fillR g current rem).1 = g.grid := by
  intro rem
  induction rem with
  | zero =>
    intro g current hpre hf
    rw [fillR] at hf
    exact absurd hf (by simp)
  | succ rem ih =>
    intro g current hpre hf
    have hsuf : ∀ i, current + 1 ≤ i → g.grid.getD i ⟨0, false⟩ = ⟨0, false⟩ := by
      intro i hi
      exact hpre i (by omega)
    have hframe := foldl_fill_frame
      (fun (acc : List Cell × Bool) n =>
        if acc.2 then acc
        else fillR { g with grid := acc.1.set current ⟨n, true⟩ } (current + 1) rem)
      current
      (by
        intro acc n h
        simp [h])
      (by
        intro gr n hsufgr hf2
        dsimp only at hf2 ⊢
        simp only [Bool.false_eq_true, if_false] at hf2 ⊢
        have hpre2 : ∀ i, current + 1 ≤ i →
            cellAt { g with grid := gr.set current ⟨n, true⟩ } i = ⟨0, false⟩ := by
          intro i hi
          show (gr.set current ⟨n, true⟩).getD i ⟨0, false⟩ = ⟨0, false⟩
          rw [list_getD_set_ne (by omega)]
          exact hsufgr i hi
        have h1 := ih { g with grid := gr.set current ⟨n, true⟩ } (current + 1) hpre2 hf2
        rw [h1]
        constructor
        · intro z
          show (gr.set current ⟨n, true⟩).set current z = gr.set current z
          exact List.set_set _ _ _ _
        · intro i hi
          show (gr.set current ⟨n, true⟩).getD i ⟨0, false⟩ = ⟨0, false⟩
          rw [list_getD_set_ne (by omega)]
          exact hsufgr i hi)
      (valids g current) g.grid hsuf
    rw [fillR] at hf ⊢
    cases hr2 : ((valids g current).foldl
        (fun (acc : List Cell × Bool) n =>
          if acc.2 then acc
          else fillR { g with grid := acc.1.set current ⟨n, true⟩ } (current + 1) rem)
        (g.grid, false)).2 with
    | true =>
      simp [hr2] at hf
    | false =>
      simp only [hr2, Bool.false_eq_true, if_false] at hf ⊢
      obtain ⟨hz, _⟩ := hframe hr2
      show ((valids g current).foldl
        (fun (acc : List Cell × Bool) n =>
          if acc.2 then acc
          else fillR { g with grid := acc.1.set current ⟨n, true⟩ } (current + 1) rem)
        (g.grid, false)).1.set current ⟨0, false⟩ = g.grid
      rw [hz ⟨0, false⟩]
      have hc : cellAt g current = ⟨0, false⟩ := hpre current (le_refl _)
      rw [show (⟨0, false⟩ : Cell) = g.grid.getD current ⟨0, false⟩ from hc.symm]
      exact list_set_getD _ _ _

/-- Counterexample to C9 as stated: every cell of `gStuck` from index 6 on
is empty, `fill_rng 6` fails and leaves the grid identical — but cell 7 was
(and remains) flagged initial, so "all cells from k onward are back to
empty and non-initial" fails. -/
theorem C9_counterexample :
    (∀ i, 6 ≤ i → i < gStuck.grid.length → (cellAt gStuck i).value = 0) ∧
    (fill_rng gStuck 6).2 = false ∧
    (fill_rng gStuck 6).1 = gStuck.grid ∧
    ((fill_rng gStuck 6).1.getD 7 ⟨0, false⟩).initial = true := by
  decide

/-- C9 amended: when every cell from `k` on is empty *and non-initial*, a
`false`-returning `fill_rng(k)` leaves the grid identical to before the
call — cells below `k` untouched and cells from `k` on still empty and
non-initial. -/
theorem C9_amended_fill_failure_frame (g : Game) (k : Nat)
    (hpre : ∀ i, k ≤ i → i < g.grid.length → cellAt g i = ⟨0, false⟩)
    (hfail : (fill_rng g k).2 = false) :
    (fill_rng g k).1 = g.grid ∧
    ∀ i, k ≤ i → i < g.grid.length → (fill_rng g k).1.getD i ⟨0, false⟩ = ⟨0, false⟩ := by
  have h1 : (fill_rng g k).1 = g.grid :=
    fillR_false_frame _ g k (empty_from_bounded hpre) hfail
  refine ⟨h1, fun i hk hl => ?_⟩
  rw [h1]
  exact hpre i hk hl

/-- Witness for the amended C9 on a concrete stuck grid with a clean
suffix. -/
theorem C9_witness :
    (fill_rng gStuckClean 6).1 = gStuckClean.grid ∧
    ∀ i, 6 ≤ i → i < gStuckClean.grid.length →
      (fill_rng gStuckClean 6).1.getD i ⟨0, false⟩ = ⟨0, false⟩ :=
  C9_amended_fill_failure_frame gStuckClean 6 (by decide) (by decide)

/-- C10: whenever the Obvious solver returns `Ok`, the grid it leaves
behind satisfies `is_done` — success is only ever reported from the
`is_done` base case. -/
theorem C10_solve_ok_is_done (g : Game) (h : (solve g).2 = true) :
    is_done { g with grid := (solve g).1 } = true := by
  induction g using solve.induct with
  | case1 g hdone =>
    rw [solve, if_pos hdone]
    exact hdone
  | case2 g hnot i hfind hcond ih =>
    have hs : solve g
        = solve { g with grid := g.grid.set i ⟨(valids g i).headD 0, false⟩ } := by
      rw [solve, if_neg hnot]
      simp only [hfind]
      rw [dif_pos hcond]
    rw [hs] at h ⊢
    exact ih h
  | case3 g hnot i hfind hcond =>
    exfalso
    rw [solve, if_neg hnot] at h
    simp only [hfind] at h
    rw [dif_neg hcond] at h
    simp at h
  | case4 g hnot hfind =>
    exfalso
    rw [solve, if_neg hnot] at h
    simp only [hfind] at h
    simp at h

/-- Witness for C10 on a concrete completed 4×4 grid. -/
theorem C10_witness :
    (solve gComplete).2 = true ∧
    is_done { gComplete with grid := (solve gComplete).1 } = true := by
  have hdone : is_done gComplete = true := by decide
  have hs : (solve gComplete).2 = true := by
    rw [solve, if_pos hdone]
  exact ⟨hs, C10_solve_ok_is_done gComplete hs⟩

/-- Pigeonhole for groups: a list of `s` values containing every value of
`1..s` contains each of them exactly once. -/
theorem count_one_of_full {l : List Nat} {s : Nat} (hlen : l.length = s)
    (hmem : ∀ v, 1 ≤ v → v ≤ s → v ∈ l) :
    ∀ v, 1 ≤ v → v ≤ s → l.count v = 1 := by
  have hnd : ((List.range s).map fun v => v + 1).Nodup :=
    List.Nodup.map (fun a b hab => by omega) (List.nodup_range s)
  have hsub : ((List.range s).map fun v => v + 1) ⊆ l := by
    intro v hv
    rw [List.mem_map] at hv
    obtain ⟨a, ha, rfl⟩ := hv
    rw [List.mem_range] at ha
    exact hmem (a + 1) (by omega) (by omega)
  have hperm : ((List.range s).map fun v => v + 1).Perm l :=
    (List.subperm_of_subset hnd hsub).perm_of_length_le (by simp [hlen])
  intro v hv1 hv2
  rw [← hperm.count_eq]
  refine List.count_eq_one_of_mem hnd ?_
  rw [List.mem_map]
  refine ⟨v - 1, ?_, by omega⟩
  rw [List.mem_range]
  omega

/-- The check `.any(|x| x == v)` over a group of indices holds exactly when
`v` is among the group's values. -/
theorem containsVal_iff {g : Game} {idxs : List Nat} {v : Nat} :
    containsVal g idxs v = true ↔ v ∈ idxs.map fun i => (cellAt g i).value := by
  rw [containsVal, List.any_eq_true, List.mem_map]
  constructor
  · rintro ⟨i, hi, hv⟩
    refine ⟨i, hi, ?_⟩
    have := beq_iff_eq.mp hv
    omega
  · rintro ⟨i, hi, hv⟩
    refine ⟨i, hi, ?_⟩
    rw [beq_iff_eq]
    omega

/-- One group's `is_done` check holds exactly when the group's values
contain each of `1..side` exactly once, provided the group has `side`
cells. -/
theorem group_check_iff {g : Game} {idxs : List Nat} (hlen : idxs.length = g.side_size) :
    ((((List.range g.side_size).map fun v => v + 1).all fun v => containsVal g idxs v) = true)
      ↔ exactlyOnce g.side_size (idxs.map fun i => (cellAt g i).value) := by
  rw [List.all_eq_true]
  constructor
  · intro hall
    refine count_one_of_full (by simp [hlen]) ?_
    intro v hv1 hv2
    refine containsVal_iff.mp (hall v ?_)
    rw [List.mem_map]
    refine ⟨v - 1, ?_, by omega⟩
    rw [List.mem_range]
    omega
  · intro he v hv
    rw [List.mem_map] at hv
    obtain ⟨a, ha, rfl⟩ := hv
    rw [List.mem_range] at ha
    refine containsVal_iff.mpr ?_
    rw [← List.count_pos_iff]
    rw [he (a + 1) (by omega) (by omega)]
    omega

/-- The values of the source's `row` group are the spec's row values. -/
theorem rowVals_eq (g : Game) (r : Nat) :
    ((row g r).map fun i => (cellAt g i).value) = specRowVals g r := by
  simp [row, specRowVals, List.map_map, Function.comp, index]

/-- The values of the source's `column` group are the spec's column
values. -/
theorem colVals_eq (g : Game) (c : Nat) :
    ((column g c).map fun i => (cellAt g i).value) = specColVals g c := by
  simp [column, specColVals, List.map_map, Function.comp, index]

/-- The values of the source's block group at block coordinates
`(gx, gy)` are the spec's block values. -/
theorem blockVals_eq (g : Game) (hsz : 0 < g.size) (gx gy : Nat) :
    ((group g (gx * g.size) (gy * g.size)).map fun i => (cellAt g i).value)
      = specBlockVals g gx gy := by
  simp only [group, specBlockVals, Nat.mul_div_cancel _ hsz]
  rw [List.map_flatMap]
  simp [List.map_map, Function.comp_def, index]

/-- Lengths of the three group index lists. -/
theorem row_length (g : Game) (r : Nat) : (row g r).length = g.side_size := by
  simp [row]

theorem column_length (g : Game) (c : Nat) : (column g c).length = g.side_size := by
  simp [column]

theorem group_length (g : Game) (r c : Nat) : (group g r c).length = g.size * g.size := by
  simp [group, List.length_flatMap, Function.comp_def]

/-- C1: `is_done` is false on any grid with an empty cell, and — for a grid
whose `side_size` is the square of its block size, the construction
invariant — it is true exactly when every cell is non-empty and every row,
every column and every block holds each value of `[1, side]` exactly once.
The exactly-once direction is pigeonhole: each group has `side` cells, so
containing all `side` values at least once means containing each exactly
once. -/
theorem C1_is_done_iff_exactly_once (g : Game) (hwf : g.side_size = g.size * g.size) :
    ((∃ x ∈ g.grid, x.value = 0) → is_done g = false) ∧
    (is_done g = true ↔ specComplete g) := by
  have hempty_iff : (g.grid.any fun x => x.value == 0) = true ↔ ∃ x ∈ g.grid, x.value = 0 := by
    rw [List.any_eq_true]
    constructor
    · rintro ⟨x, hx, hv⟩
      exact ⟨x, hx, beq_iff_eq.mp hv⟩
    · rintro ⟨x, hx, hv⟩
      exact ⟨x, hx, beq_iff_eq.mpr hv⟩
  constructor
  · intro hex
    rw [is_done, if_pos (hempty_iff.mpr hex)]
  · by_cases hany : (g.grid.any fun x => x.value == 0) = true
    · rw [is_done, if_pos hany]
      constructor
      · intro hfalse
        cases hfalse
      · intro hspec
        obtain ⟨x, hx, hv⟩ := hempty_iff.mp hany
        exact absurd hv (hspec.1 x hx)
    · have hnon : ∀ x ∈ g.grid, x.value ≠ 0 := by
        intro x hx hv
        exact hany (hempty_iff.mpr ⟨x, hx, hv⟩)
      rw [is_done, if_neg hany]
      rw [Bool.and_eq_true, Bool.and_eq_true]
      rw [List.all_eq_true, List.all_eq_true, List.all_eq_true]
      constructor
      · rintro ⟨⟨hrows, hcols⟩, hgr⟩
        refine ⟨hnon, ?_, ?_, ?_⟩
        · intro r hr
          have h1 := hrows r (List.mem_range.mpr hr)
          rw [group_check_iff (row_length g r), rowVals_eq] at h1
          exact h1
        · intro c hc
          have h1 := hcols c (List.mem_range.mpr hc)
          rw [group_check_iff (column_length g c), colVals_eq] at h1
          exact h1
        · intro br hbr bc hbc
          have hsz : 0 < g.size := lt_of_le_of_lt (Nat.zero_le _) hbr
          have h1 := hgr br (List.mem_range.mpr hbr)
          rw [List.all_eq_true] at h1
          have h2 := h1 bc (List.mem_range.mpr hbc)
          rw [group_check_iff (by rw [group_length, hwf]), blockVals_eq g hsz] at h2
          exact h2
      · rintro ⟨_, hrows, hcols, hblocks⟩
        refine ⟨⟨?_, ?_⟩, ?_⟩
        · intro r hr
          rw [group_check_iff (row_length g r), rowVals_eq]
          exact hrows r (List.mem_range.mp hr)
        · intro c hc
          rw [group_check_iff (column_length g c), colVals_eq]
          exact hcols c (List.mem_range.mp hc)
        · intro gx hgx
          rw [List.all_eq_true]
          intro gy hgy
          have hsz : 0 < g.size := lt_of_le_of_lt (Nat.zero_le _) (List.mem_range.mp hgx)
          rw [group_check_iff (by rw [group_length, hwf]), blockVals_eq g hsz]
          exact hblocks gx (List.mem_range.mp hgx) gy (List.mem_range.mp hgy)

/-- Witness for C1: the completed 4×4 grid satisfies the exactly-once
property, and an empty 9×9 grid is not done. -/
theorem C1_witness : specComplete gComplete ∧ is_done (new 3) = false :=
  ⟨(C1_is_done_iff_exactly_once gComplete rfl).2.mp (by decide),
   (C1_is_done_iff_exactly_once (new 3) rfl).1 (by decide)⟩

/-- A decimal digit character is a digit. -/
theorem digitChar_isDigit {m : Nat} (h : m < 10) : (Char.ofNat (48 + m)).isDigit = true := by
  interval_cases m <;> decide

/-- Code point of a decimal digit character. -/
theorem digitChar_toNat {m : Nat} (h : m < 10) : (Char.ofNat (48 + m)).toNat = 48 + m := by
  interval_cases m <;> decide

/-- Digit characters are not newlines. -/
theorem isDigit_ne_newline {c : Char} (h : c.isDigit = true) : c ≠ '\n' := by
  intro heq
  rw [heq] at h
  exact absurd h (by decide)

/-- Peeling the last digit off a numeral parse. -/
theorem charsToNat_append_digit (ds : List Char) (c : Char) :
    charsToNat (ds ++ [c]) = charsToNat ds * 10 + (c.toNat - 48) := by
  rw [charsToNat, List.foldl_append]
  rfl

/-- With enough fuel, `natDigitsGo` produces a non-empty all-digit numeral
that parses back to its input. -/
theorem natDigitsGo_spec : ∀ fuel n, n < fuel →
    (∀ c ∈ natDigitsGo fuel n, c.isDigit = true) ∧
    natDigitsGo fuel n ≠ [] ∧
    charsToNat (natDigitsGo fuel n) = n := by
  intro fuel
  induction fuel with
  | zero =>
    intro n h
    omega
  | succ fuel ih =>
    intro n h
    by_cases h10 : n < 10
    · rw [natDigitsGo, if_pos h10]
      refine ⟨?_, by simp, ?_⟩
      · intro c hc
        rw [List.mem_singleton] at hc
        subst hc
        exact digitChar_isDigit h10
      · show charsToNat ([] ++ [Char.ofNat (48 + n)]) = n
        rw [charsToNat_append_digit, digitChar_toNat h10]
        show 0 * 10 + (48 + n - 48) = n
        omega
    · rw [natDigitsGo, if_neg h10]
      have hrec : n / 10 < fuel := by
        have := Nat.div_lt_self (show 0 < n by omega) (show 1 < 10 by omega)
        omega
      obtain ⟨hd, hne, hval⟩ := ih (n / 10) hrec
      refine ⟨?_, by simp, ?_⟩
      · intro c hc
        rw [List.mem_append] at hc
        cases hc with
        | inl h1 => exact hd c h1
        | inr h2 =>
          rw [List.mem_singleton] at h2
          subst h2
          exact digitChar_isDigit (by omega)
      · rw [charsToNat_append_digit, hval, digitChar_toNat (by omega)]
        omega

/-- Every character of a numeral is a digit. -/
theorem natDigits_isDigit {n : Nat} : ∀ c ∈ natDigits n, c.isDigit = true :=
  (natDigitsGo_spec (n + 1) n (by omega)).1

/-- Numerals are non-empty. -/
theorem natDigits_ne_nil {n : Nat} : natDigits n ≠ [] :=
  (natDigitsGo_spec (n + 1) n (by omega)).2.1

/-- Parsing a numeral recovers the number. -/
theorem charsToNat_natDigits (n : Nat) : charsToNat (natDigits n) = n :=
  (natDigitsGo_spec (n + 1) n (by omega)).2.2

/-- One-digit numbers print as a single character. -/
theorem natDigits_single {n : Nat} (h : n < 10) : natDigits n = [Char.ofNat (48 + n)] := by
  rw [natDigits, natDigitsGo, if_pos h]

/-- Numerals contain no newline. -/
theorem natDigits_ne_newline {n : Nat} : ∀ c ∈ natDigits n, c ≠ '\n' :=
  fun c hc => isDigit_ne_newline (natDigits_isDigit c hc)

/-- A newline-free text is a single line. -/
theorem splitLines_no_newline {a : List Char} (h : ∀ c ∈ a, c ≠ '\n') :
    splitLines a = [a] := by
  induction a with
  | nil => rfl
  | cons c rest ih =>
    rw [splitLines, if_neg (h c (List.mem_cons_self c rest))]
    rw [ih fun x hx => h x (List.mem_cons_of_mem c hx)]

/-- Splitting at the first newline of a text whose head part is
newline-free. -/
theorem splitLines_append {a b : List Char} (h : ∀ c ∈ a, c ≠ '\n') :
    splitLines (a ++ '\n' :: b) = a :: splitLines b := by
  induction a with
  | nil =>
    show splitLines ('\n' :: b) = [] :: splitLines b
    rw [splitLines, if_pos rfl]
  | cons c rest ih =>
    show splitLines (c :: (rest ++ '\n' :: b)) = (c :: rest) :: splitLines b
    rw [splitLines, if_neg (h c (List.mem_cons_self c rest))]
    rw [ih fun x hx => h x (List.mem_cons_of_mem c hx)]

/-- One rendered cell contains no newline. -/
theorem renderCell_ne_newline {x : Cell} : ∀ ch ∈ renderCell x, ch ≠ '\n' := by
  intro ch hch
  rw [renderCell, List.mem_append] at hch
  cases hch with
  | inl h1 => exact natDigits_ne_newline ch h1
  | inr h2 =>
    rw [List.mem_cons] at h2
    cases h2 with
    | inl h =>
      subst h
      decide
    | inr h =>
      rw [List.mem_singleton] at h
      subst h
      cases x.initial <;> decide

/-- A rendered cell list contains no newline. -/
theorem renderCells_ne_newline : ∀ (l : List Cell), ∀ ch ∈ renderCells l, ch ≠ '\n' := by
  intro l
  induction l using renderCells.induct with
  | case1 =>
    intro ch hch
    cases hch
  | case2 x =>
    exact fun ch hch => renderCell_ne_newline ch hch
  | case3 x y xs ih =>
    intro ch hch
    rw [renderCells, List.mem_append] at hch
    cases hch with
    | inl h => exact renderCell_ne_newline ch h
    | inr h =>
      rw [List.mem_cons] at h
      cases h with
      | inl h =>
        subst h
        decide
      | inr h => exact ih ch h

/-- Parsing a rendered cell list of single-digit values recovers exactly
the cells, with nothing left over. -/
theorem parseCellItems_render : ∀ (l : List Cell), (∀ x ∈ l, x.value ≤ 9) →
    parseCellItems (renderCells l) = (l, []) := by
  intro l
  induction l using renderCells.induct with
  | case1 =>
    intro h
    rfl
  | case2 x =>
    intro h
    have hv : x.value < 10 := by
      have := h x (List.mem_singleton.mpr rfl)
      omega
    show parseCellItems (renderCell x) = ([x], [])
    rw [renderCell, natDigits_single hv]
    cases hini : x.initial with
    | false =>
      show parseCellItems (Char.ofNat (48 + x.value) :: '/' :: 'N' :: []) = ([x], [])
      rw [parseCellItems, if_pos ⟨digitChar_isDigit hv, Or.inr rfl⟩]
      show ([⟨(Char.ofNat (48 + x.value)).toNat - 48, false⟩], ([] : List Char)) = ([x], [])
      rw [digitChar_toNat hv]
      have hx : (⟨48 + x.value - 48, false⟩ : Cell) = x := by
        have : 48 + x.value - 48 = x.value := by omega
        rw [this, ← hini]
      rw [hx]
      intro rest1 hcontra
      simp at hcontra
    | true =>
      show parseCellItems (Char.ofNat (48 + x.value) :: '/' :: 'I' :: []) = ([x], [])
      rw [parseCellItems, if_pos ⟨digitChar_isDigit hv, Or.inl rfl⟩]
      show ([⟨(Char.ofNat (48 + x.value)).toNat - 48, true⟩], ([] : List Char)) = ([x], [])
      rw [digitChar_toNat hv]
      have hx : (⟨48 + x.value - 48, true⟩ : Cell) = x := by
        have : 48 + x.value - 48 = x.value := by omega
        rw [this, ← hini]
      rw [hx]
      intro rest1 hcontra
      simp at hcontra
  | case3 x y xs ih =>
    intro h
    have hv : x.value < 10 := by
      have := h x (List.mem_cons_self _ _)
      omega
    have hrest := ih fun z hz => h z (List.mem_cons_of_mem x hz)
    rw [renderCells, renderCell, natDigits_single hv]
    cases hini : x.initial with
    | false =>
      show parseCellItems
          (Char.ofNat (48 + x.value) :: '/' :: 'N' :: ',' :: renderCells (y :: xs))
        = (x :: y :: xs, [])
      rw [parseCellItems, if_pos ⟨digitChar_isDigit hv, Or.inr rfl⟩]
      rw [hrest, digitChar_toNat hv]
      show ((⟨48 + x.value - 48, false⟩ : Cell) :: y :: xs, ([] : List Char)) = (x :: y :: xs, [])
      have hx : (⟨48 + x.value - 48, false⟩ : Cell) = x := by
        have : 48 + x.value - 48 = x.value := by omega
        rw [this, ← hini]
      rw [hx]
    | true =>
      show parseCellItems
          (Char.ofNat (48 + x.value) :: '/' :: 'I' :: ',' :: renderCells (y :: xs))
        = (x :: y :: xs, [])
      rw [parseCellItems, if_pos ⟨digitChar_isDigit hv, Or.inl rfl⟩]
      rw [hrest, digitChar_toNat hv]
      show ((⟨48 + x.value - 48, true⟩ : Cell) :: y :: xs, ([] : List Char)) = (x :: y :: xs, [])
      have hx : (⟨48 + x.value - 48, true⟩ : Cell) = x := by
        have : 48 + x.value - 48 = x.value := by omega
        rw [this, ← hini]
      rw [hx]

/-- C5 amended: `save` followed by `from_file` is the identity on games
over a supported block size whose grids are well-formed, hold only
single-digit values, and whose selection state is in range with
`selected_value` derived from the selected cell (exactly `from_file`'s
derivation). -/
theorem C5_amended_round_trip (g : Game)
    (hs : g.size = 3 ∨ g.size = 4 ∨ g.size = 5)
    (hside : g.side_size = g.size * g.size)
    (hlen : g.grid.length = g.side_size * g.side_size)
    (hvals : ∀ x ∈ g.grid, x.value ≤ 9)
    (hsel : ∀ si, g.selected_index = some si → si < g.side_size * g.side_size)
    (hsv : g.selected_value = derivedSelected g.grid g.selected_index) :
    from_file (save g) = Except.ok g := by
  obtain ⟨size, side, selidx, selval, grid⟩ := g
  dsimp only at hs hside hlen hvals hsel hsv
  have hgrid_ne : grid ≠ [] := by
    intro h
    subst h
    simp only [List.length_nil] at hlen
    rcases hs with rfl | rfl | rfl <;> (rw [hside] at hlen; omega)
  have hgs_nl : ∀ c ∈ ('g' :: 'a' :: 'm' :: 'e' :: '_' :: 's' :: 'i' :: 'z' :: 'e' :: ':' :: ' ' :: natDigits size), c ≠ '\n' := by
    intro c hc
    simp only [List.mem_cons] at hc
    rcases hc with rfl | rfl | rfl | rfl | rfl | rfl | rfl | rfl | rfl | rfl | rfl | h
    all_goals try decide
    exact natDigits_ne_newline c h
  have hcl_nl : ∀ c ∈ ('c' :: 'e' :: 'l' :: 'l' :: 's' :: ':' :: ' ' :: renderCells grid), c ≠ '\n' := by
    intro c hc
    simp only [List.mem_cons] at hc
    rcases hc with rfl | rfl | rfl | rfl | rfl | rfl | rfl | h
    all_goals try decide
    exact renderCells_ne_newline grid c h
  have hgsl : gameSizeOfLine ('g' :: 'a' :: 'm' :: 'e' :: '_' :: 's' :: 'i' :: 'z' :: 'e' :: ':' :: ' ' :: natDigits size) = some size := by
    rcases hs with rfl | rfl | rfl <;> decide
  have hcll : cellsOfLine ('c' :: 'e' :: 'l' :: 'l' :: 's' :: ':' :: ' ' :: renderCells grid) = some grid := by
    show (if (parseCellItems (renderCells grid)).1 = [] then none
          else some (parseCellItems (renderCells grid)).1) = some grid
    rw [parseCellItems_render grid hvals]
    exact if_neg hgrid_ne
  cases selidx with
  | none =>
    have hsave : save ⟨size, side, none, selval, grid⟩
        = ('g' :: 'a' :: 'm' :: 'e' :: '_' :: 's' :: 'i' :: 'z' :: 'e' :: ':' :: ' ' :: natDigits size)
          ++ '\n' :: (('c' :: 'e' :: 'l' :: 'l' :: 's' :: ':' :: ' ' :: renderCells grid) ++ '\n' :: []) := by
      simp only [save, List.cons_append, List.append_assoc, List.nil_append]
    have hlines : splitLines (save ⟨size, side, none, selval, grid⟩)
        = [('g' :: 'a' :: 'm' :: 'e' :: '_' :: 's' :: 'i' :: 'z' :: 'e' :: ':' :: ' ' :: natDigits size),
           ('c' :: 'e' :: 'l' :: 'l' :: 's' :: ':' :: ' ' :: renderCells grid), []] := by
      rw [hsave, splitLines_append hgs_nl, splitLines_append hcl_nl]
      rfl
    have hpg : parseGameSize (save ⟨size, side, none, selval, grid⟩) = some size := by
      rw [parseGameSize, hlines]
      rw [List.findSome?_cons_of_isSome _ (by rw [hgsl]; rfl)]
      exact hgsl
    have hps : parseSelected (save ⟨size, side, none, selval, grid⟩) = none := by
      rw [parseSelected, hlines]
      rw [List.findSome?_cons_of_isNone _ (by rfl)]
      rw [List.findSome?_cons_of_isNone _ (by rfl)]
      rfl
    have hpc : parseCells (save ⟨size, side, none, selval, grid⟩) = some grid := by
      rw [parseCells, hlines]
      rw [List.findSome?_cons_of_isNone _ (by rfl)]
      rw [List.findSome?_cons_of_isSome _ (by rw [hcll]; rfl)]
      exact hcll
    simp only [from_file, hpg, hps, hpc]
    rw [hside] at hlen
    rw [if_neg (by omega)]
    rw [if_neg (by simp)]
    rw [hsv, hside]
  | some si =>
    have hsi := hsel si rfl
    have hsel_nl : ∀ c ∈ ('s' :: 'e' :: 'l' :: 'e' :: 'c' :: 't' :: 'e' :: 'd' :: ':' :: ' ' :: natDigits si), c ≠ '\n' := by
      intro c hc
      simp only [List.mem_cons] at hc
      rcases hc with rfl | rfl | rfl | rfl | rfl | rfl | rfl | rfl | rfl | rfl | h
      all_goals try decide
      exact natDigits_ne_newline c h
    have hsll : selectedOfLine ('s' :: 'e' :: 'l' :: 'e' :: 'c' :: 't' :: 'e' :: 'd' :: ':' :: ' ' :: natDigits si) = some si := by
      show (if natDigits si ≠ [] ∧ (natDigits si).all Char.isDigit then
              some (charsToNat (natDigits si)) else none) = some si
      rw [if_pos ⟨natDigits_ne_nil, List.all_eq_true.mpr fun c hc => natDigits_isDigit c hc⟩]
      rw [charsToNat_natDigits]
    have hsave : save ⟨size, side, some si, selval, grid⟩
        = ('g' :: 'a' :: 'm' :: 'e' :: '_' :: 's' :: 'i' :: 'z' :: 'e' :: ':' :: ' ' :: natDigits size)
          ++ '\n' :: (('s' :: 'e' :: 'l' :: 'e' :: 'c' :: 't' :: 'e' :: 'd' :: ':' :: ' ' :: natDigits si)
          ++ '\n' :: (('c' :: 'e' :: 'l' :: 'l' :: 's' :: ':' :: ' ' :: renderCells grid) ++ '\n' :: [])) := by
      simp only [save, List.cons_append, List.append_assoc, List.nil_append, List.singleton_append]
    have hlines : splitLines (save ⟨size, side, some si, selval, grid⟩)
        = [('g' :: 'a' :: 'm' :: 'e' :: '_' :: 's' :: 'i' :: 'z' :: 'e' :: ':' :: ' ' :: natDigits size),
           ('s' :: 'e' :: 'l' :: 'e' :: 'c' :: 't' :: 'e' :: 'd' :: ':' :: ' ' :: natDigits si),
           ('c' :: 'e' :: 'l' :: 'l' :: 's' :: ':' :: ' ' :: renderCells grid), []] := by
      rw [hsave, splitLines_append hgs_nl, splitLines_append hsel_nl, splitLines_append hcl_nl]
      rfl
    have hpg : parseGameSize (save ⟨size, side, some si, selval, grid⟩) = some size := by
      rw [parseGameSize, hlines]
      rw [List.findSome?_cons_of_isSome _ (by rw [hgsl]; rfl)]
      exact hgsl
    have hps : parseSelected (save ⟨size, side, some si, selval, grid⟩) = some si := by
      rw [parseSelected, hlines]
      rw [List.findSome?_cons_of_isNone _ (by rfl)]
      rw [List.findSome?_cons_of_isSome _ (by rw [hsll]; rfl)]
      exact hsll
    have hpc : parseCells (save ⟨size, side, some si, selval, grid⟩) = some grid := by
      rw [parseCells, hlines]
      rw [List.findSome?_cons_of_isNone _ (by rfl)]
      rw [List.findSome?_cons_of_isNone _ (by rfl)]
      rw [List.findSome?_cons_of_isSome _ (by rw [hcll]; rfl)]
      exact hcll
    simp only [from_file, hpg, hps, hpc]
    rw [hside] at hlen hsi
    rw [if_neg (by omega)]
    rw [if_neg (by simp; omega)]
    rw [hsv, hside]

/-- Witness for the amended C5: a 9×9 grid with one clue, a matching
selection and derived selected value round-trips exactly. -/
theorem C5_witness : from_file (save gRound) = Except.ok gRound :=
  C5_amended_round_trip gRound (by decide) (by decide) (by decide) (by decide)
    (by
      intro si h
      simp only [gRound] at h ⊢
      injection h with h
      omega)
    (by decide)

/-- Counterexample to C5 as stated: a well-formed 16×16 grid (blockSize 4,
a supported size) holding the in-range value 10 does not round-trip — the
save writes `10/I`, but `RE_CELLS` only accepts single-digit values, so
`from_file` fails with `ParseSaveFileError` instead of reproducing the
grid. -/
theorem C5_counterexample :
    from_file (save gTwoDigit) = Except.error GameError.ParseSaveFileError := by
  have hgs_nl : ∀ c ∈ ('g' :: 'a' :: 'm' :: 'e' :: '_' :: 's' :: 'i' :: 'z' :: 'e' :: ':' :: ' ' :: natDigits 4), c ≠ '\n' := by
    intro c hc
    simp only [List.mem_cons] at hc
    rcases hc with rfl | rfl | rfl | rfl | rfl | rfl | rfl | rfl | rfl | rfl | rfl | h
    all_goals try decide
    exact natDigits_ne_newline c h
  have hcl_nl : ∀ c ∈ ('c' :: 'e' :: 'l' :: 'l' :: 's' :: ':' :: ' ' :: renderCells (Cell.mk 10 true :: List.replicate 255 (Cell.mk 0 false))), c ≠ '\n' := by
    intro c hc
    simp only [List.mem_cons] at hc
    rcases hc with rfl | rfl | rfl | rfl | rfl | rfl | rfl | h
    all_goals try decide
    exact renderCells_ne_newline _ c h
  have hsave : save gTwoDigit
      = ('g' :: 'a' :: 'm' :: 'e' :: '_' :: 's' :: 'i' :: 'z' :: 'e' :: ':' :: ' ' :: natDigits 4)
        ++ '\n' :: (('c' :: 'e' :: 'l' :: 'l' :: 's' :: ':' :: ' ' :: renderCells (Cell.mk 10 true :: List.replicate 255 (Cell.mk 0 false))) ++ '\n' :: []) := by
    simp only [gTwoDigit, save, List.cons_append, List.append_assoc, List.nil_append]
  have hlines : splitLines (save gTwoDigit)
      = [('g' :: 'a' :: 'm' :: 'e' :: '_' :: 's' :: 'i' :: 'z' :: 'e' :: ':' :: ' ' :: natDigits 4),
         ('c' :: 'e' :: 'l' :: 'l' :: 's' :: ':' :: ' ' :: renderCells (Cell.mk 10 true :: List.replicate 255 (Cell.mk 0 false))), []] := by
    rw [hsave, splitLines_append hgs_nl, splitLines_append hcl_nl]
    rfl
  have hcln : cellsOfLine ('c' :: 'e' :: 'l' :: 'l' :: 's' :: ':' :: ' ' :: renderCells (Cell.mk 10 true :: List.replicate 255 (Cell.mk 0 false))) = none := rfl
  have hpg : parseGameSize (save gTwoDigit) = some 4 := by
    rw [parseGameSize, hlines]
    rw [List.findSome?_cons_of_isSome _ (by decide)]
    decide
  have hpc : parseCells (save gTwoDigit) = none := by
    rw [parseCells, hlines]
    rw [List.findSome?_cons_of_isNone _ (by rfl)]
    rw [List.findSome?_cons_of_isNone _ (by rw [hcln]; rfl)]
    rfl
  simp only [from_file, hpg, hpc]

/-- Counterexample to C4 as stated: the save format may mark an empty cell
initial (`0/I`), and loading such a file through the public boundary
(`from_file`) reproduces it; `do_move(0,0,1)` on that state then succeeds
and overwrites the cell, changing both its value and its isInitial flag —
the occupancy check tests the value, not the flag. -/
theorem C4_counterexample :
    from_file (save gInitialEmpty) = Except.ok gInitialEmpty ∧
    (cellAt gInitialEmpty 0).initial = true ∧
    (do_move gInitialEmpty 0 0 1).2 = none ∧
    cellAt (do_move gInitialEmpty 0 0 1).1 0 ≠ cellAt gInitialEmpty 0 := by
  refine ⟨by decide, by decide, by decide, by decide⟩

/-- C4 amended: `do_move` never changes any non-empty cell — in particular
an initial cell holding a non-zero value (the only kind the program itself
creates) is never mutated by the move API.  An empty cell flagged initial,
representable only through a crafted save file, is not protected. -/
theorem C4_amended_nonempty_never_mutated (g : Game) (r c v i : Nat)
    (h : (cellAt g i).value ≠ 0) :
    cellAt (do_move g r c v).1 i = cellAt g i := by
  unfold do_move
  split
  · rfl
  · split
    · rfl
    · dsimp only
      split
      · rfl
      · split
        · rfl
        · rename_i hocc hval
          show cellAt { g with grid := g.grid.set (index g r c) ⟨v, false⟩ } i = cellAt g i
          have hne : index g r c ≠ i := by
            intro heq
            rw [heq] at hocc
            exact hocc h
          exact cellAt_set_ne hne _

/-- Witness for the amended C4: the occupied corner of `gOccupied` is
untouched by a move elsewhere. -/
theorem C4_witness : cellAt (do_move gOccupied 0 1 5).1 0 = cellAt gOccupied 0 :=
  C4_amended_nonempty_never_mutated gOccupied 0 1 5 0 (by decide)

end Sudoku
